import Mathlib

/-!
Verification of the hipervinculos worker core: the GitHub-backed append-log
store adapter (`github.js`), the metadata resolver (`metadata.js`), the
Telegram ingestion handler (`telegram.js`) and the retry-queue sweep
(`scheduled.js`).

JavaScript strings are embedded as `List Char` (named `Chars`); external
effects (the octokit store calls, `fetch`, the KV queue, `Math.random`,
`crypto.randomUUID`, `new Date`) are passed in as explicit oracle values, so
every function below is a pure, executable transcription of the source.
-/

/-- JavaScript strings, embedded as their character sequences. -/
abbrev Chars := List Char

/-- The character set recognised by both JavaScript `String.prototype.trim`
and the regex class `\s`: WhiteSpace plus LineTerminator code points. -/
def jsWs (c : Char) : Bool :=
  c.toNat = 9 || c.toNat = 10 || c.toNat = 11 || c.toNat = 12 ||
  c.toNat = 13 || c.toNat = 32 || c.toNat = 160 || c.toNat = 0x1680 ||
  (0x2000 ≤ c.toNat && c.toNat ≤ 0x200a) || c.toNat = 0x2028 ||
  c.toNat = 0x2029 || c.toNat = 0x202f || c.toNat = 0x205f ||
  c.toNat = 0x3000 || c.toNat = 0xfeff

/-- JavaScript `s.trim()`: drop leading and trailing whitespace. -/
def trimJs (s : Chars) : Chars :=
  ((s.dropWhile jsWs).reverse.dropWhile jsWs).reverse

/-- JavaScript `s.split('\n')`. Always returns at least one piece. -/
def splitNl : Chars → List Chars
  | [] => [[]]
  | c :: cs =>
    if c = '\n' then [] :: splitNl cs
    else
      match splitNl cs with
      | [] => [[c]]
      | p :: ps => (c :: p) :: ps

/-- JavaScript `lines.join('\n')`. -/
def joinNl : List Chars → Chars
  | [] => []
  | [x] => x
  | x :: xs => x ++ '\n' :: joinNl xs

/-- The per-record line serialization the adapter delegates to the platform:
`JSON.stringify` on the way out and `JSON.parse` on the way back.  The
adapter code treats this pair as an opaque codec for one record per line. -/
structure LineCodec (α : Type) where
  stringify : α → Chars
  parse : Chars → Option α

/-- Properties of a single serialized line that the adapter relies on and
that `JSON.stringify` of a record object guarantees: the line is nonempty,
contains no raw newline, and neither starts nor ends with whitespace
(it starts with an opening brace and ends with a closing one). -/
def lineOkB (l : Chars) : Bool :=
  !l.isEmpty && l.all (fun c => !(c = '\n')) &&
  (match l.head? with
   | some c => !jsWs c
   | none => false) &&
  (match l.reverse.head? with
   | some c => !jsWs c
   | none => false)

/-- Source `github.js`, `saveBookmark` lines 49-51: the new blob content is
`bookmarks.map(b => JSON.stringify(b)).join('\n') + '\n'`. -/
def serializeBookmarks (c : LineCodec α) (l : List α) : Chars :=
  joinNl (l.map c.stringify) ++ ['\n']

/-- Source `github.js`, `getBookmarkFile` lines 23-27: decode the blob by
`content.trim().split('\n').filter(line => line.trim()).map(JSON.parse)`.
A line failing to parse makes the whole decode fail (`JSON.parse` throws). -/
def decodeBookmarks (c : LineCodec α) (s : Chars) : Option (List α) :=
  (((splitNl (trimJs s)).filter (fun line => !(trimJs line).isEmpty)).map c.parse).mapM id

/-- A tiny concrete line codec over `Bool`, used to instantiate the
round-trip theorem on a computable input. -/
def boolCodec : LineCodec Bool where
  stringify := fun b => if b then ['t'] else ['f']
  parse := fun s => if s = ['t'] then some true else if s = ['f'] then some false else none

/-- Outcome of one `octokit.repos.getContent` call: either the decoded blob
content together with its revision sha, or a thrown error carrying an
optional HTTP status (a `SyntaxError` from `JSON.parse` carries none). -/
inductive StoreRead where
  | ok (content : Chars) (sha : Chars)
  | err (status : Option Nat)

/-- Outcome of one `octokit.repos.createOrUpdateFileContents` call. -/
inductive WriteResult where
  | ok
  | err (status : Option Nat)

/-- Source `github.js` lines 14-36 (`getBookmarkFile`): read the blob, decode
it into records plus its sha; a thrown error with status 404 yields the empty
list with a null sha, any other error (including a decode `SyntaxError`,
whose `status` is undefined) is rethrown. -/
def getBookmarkFile (c : LineCodec α) (read : StoreRead) :
    Except (Option Nat) (List α × Option Chars) :=
  match read with
  | .ok content sha =>
    match decodeBookmarks c content with
    | some recs => .ok (recs, some sha)
    | none => .error none
  | .err status => if status = some 404 then .ok ([], none) else .error status

/-- One conditional write issued by `saveBookmark`: the full new content and
the expected prior sha (`sha || undefined`, so absent for a new file). -/
structure WriteCall where
  content : Chars
  expectedSha : Option Chars

/-- Trace of externally visible actions of one `saveBookmark` call: the
conditional writes issued and the backoff delays slept (in milliseconds,
each `Math.random() * 500 + 200`). -/
structure SaveTrace where
  writes : List WriteCall
  backoffs : List ℚ

/-- How a `saveBookmark` call ends. -/
inductive SaveOutcome where
  | success
  | persistenceError
  | thrown (status : Option Nat)

/-- Source `github.js` line 39. -/
def maxRetries : Nat := 3

/-- Source `github.js` line 61: `sha: sha || undefined`. -/
def shaOrUndefined : Option Chars → Option Chars
  | none => none
  | some s => if s = [] then none else some s

/-- The body of the `while (attempt < maxRetries)` loop of `saveBookmark`
(source `github.js` lines 42-75), with `fuel = maxRetries - attempt`.  Each
iteration re-reads the file (`reads attempt`), appends the pending bookmark
on top of the fresh records, and issues the conditional write
(`writeRes attempt`); a 409 conflict increments `attempt` and sleeps a
randomized backoff, any other thrown error propagates. -/
def saveGo (c : LineCodec α) (b : α) (reads : Nat → StoreRead)
    (writeRes : Nat → WriteResult) (rand : Nat → ℚ) :
    Nat → Nat → SaveTrace × SaveOutcome
  | _, 0 => (⟨[], []⟩, .persistenceError)
  | attempt, fuel + 1 =>
    match getBookmarkFile c (reads attempt) with
    | .error st =>
      if st = some 409 then
        let rest := saveGo c b reads writeRes rand (attempt + 1) fuel
        (⟨rest.1.writes, (rand attempt * 500 + 200) :: rest.1.backoffs⟩, rest.2)
      else (⟨[], []⟩, .thrown st)
    | .ok (recs, sha) =>
      let wc : WriteCall := ⟨serializeBookmarks c (recs ++ [b]), shaOrUndefined sha⟩
      match writeRes attempt with
      | .ok => (⟨[wc], []⟩, .success)
      | .err st =>
        if st = some 409 then
          let rest := saveGo c b reads writeRes rand (attempt + 1) fuel
          (⟨wc :: rest.1.writes, (rand attempt * 500 + 200) :: rest.1.backoffs⟩, rest.2)
        else (⟨[wc], []⟩, .thrown st)

/-- Source `github.js` lines 38-77 (`saveBookmark`): run the conflict-retry
loop from `attempt = 0`; exhausting the loop throws the final persistence
error of line 76. -/
def saveBookmark (c : LineCodec α) (b : α) (reads : Nat → StoreRead)
    (writeRes : Nat → WriteResult) (rand : Nat → ℚ) : SaveTrace × SaveOutcome :=
  saveGo c b reads writeRes rand 0 maxRetries

/-- JavaScript truthiness filter on an optional string: the empty string and
an absent value are both falsy. -/
def truthyStr : Option Chars → Option Chars
  | some s => if s = [] then none else some s
  | none => none

/-- JavaScript `a || b` on strings: `b` when `a` is empty. -/
def jsOrStr (a b : Chars) : Chars := if a = [] then b else a

/-- JavaScript `a || b || ...`: the first truthy value of the chain, if any
(a trailing `|| undefined` yields `none`). -/
def firstTruthy (xs : List (Option Chars)) : Option Chars :=
  xs.foldr (fun a acc =>
    match truthyStr a with
    | some s => some s
    | none => acc) none

/-- What the cheerio selectors of `metadata.js` lines 132-147 would produce
on the fetched document: each `meta[...]` attribute lookup yields an optional
string, and `$('title').text()` always yields a string (empty if absent). -/
structure PageMeta where
  ogTitle : Option Chars
  twTitle : Option Chars
  titleText : Chars
  ogDesc : Option Chars
  twDesc : Option Chars
  metaDesc : Option Chars
  ogImage : Option Chars
  twImage : Option Chars

/-- Whether the platform `new URL(url)` call succeeds, and with which
`protocol` value when it does. -/
inductive UrlParse where
  | fails
  | parses (protocol : Chars)

/-- What the network does for the single `fetch` of `fetchMetadata`: the
request either rejects (network error, or the 5s timeout firing the abort
controller) or yields a response with an `ok` flag, a final redirected
`response.url`, and a body the selectors read. -/
inductive FetchOutcome where
  | throws
  | response (ok : Bool) (respUrl : Chars) (page : PageMeta)

/-- Result object of `fetchMetadata` (source `metadata.js`): optional
enrichment fields, the url, and the `partial` flag (absent, hence false, on
the full-success path). -/
structure ResolvedMeta where
  title : Option Chars
  description : Option Chars
  image : Option Chars
  url : Chars
  isPartial : Bool

/-- How a `fetchMetadata` call ends: it throws `InvalidUrlError` for a
structurally invalid url and otherwise returns a `ResolvedMeta`. -/
inductive FetchResult where
  | invalidUrl
  | ok (m : ResolvedMeta)

/-- Source `metadata.js` lines 95-161 (`fetchMetadata`): validate the url
(only `http:`/`https:` protocols pass), then fetch; a rejected fetch returns
a bare record with `partial: true`, a non-2xx response returns
`response.url || url` with `partial: true`, and a 2xx response extracts each
field through its `og:` / `twitter:` / generic fallback chain. -/
def fetchMetadata (up : UrlParse) (url : Chars) (net : FetchOutcome) : FetchResult :=
  match up with
  | .fails => .invalidUrl
  | .parses protocol =>
    if protocol = "http:".toList ∨ protocol = "https:".toList then
      match net with
      | .throws => .ok ⟨none, none, none, url, true⟩
      | .response ok respUrl page =>
        if ok then
          .ok ⟨firstTruthy [page.ogTitle, page.twTitle, some page.titleText],
               firstTruthy [page.ogDesc, page.twDesc, page.metaDesc],
               firstTruthy [page.ogImage, page.twImage],
               jsOrStr respUrl url, false⟩
        else .ok ⟨none, none, none, jsOrStr respUrl url, true⟩
    else .invalidUrl

/-- Whether a `FetchOutcome` is one of the transient failure modes: a
rejected fetch (network error or timeout) or a non-2xx response. -/
def netFails : FetchOutcome → Bool
  | .throws => true
  | .response ok _ _ => !ok

/-- A JavaScript value as it appears in the bookmark and retry-entry object
literals JSON-serialized by the worker. -/
inductive JsValue where
  | undefV
  | nullv
  | bool (b : Bool)
  | num (n : Int)
  | str (s : Chars)
  | arr (elems : List JsValue)
  | obj (fields : List (Chars × JsValue))

/-- Property lookup on a JavaScript object value. -/
def getField (k : Chars) : JsValue → Option JsValue
  | .obj fields => fields.lookup k
  | _ => none

/-- The characters excluded (besides whitespace) by the character class of
`URL_REGEX` in `telegram.js` line 5: angle brackets, double quote, braces,
pipe, backslash, caret, backtick and square brackets. -/
def urlExcludedChars : Chars :=
  [Char.ofNat 60, Char.ofNat 62, Char.ofNat 34, Char.ofNat 123, Char.ofNat 125,
   Char.ofNat 124, Char.ofNat 92, Char.ofNat 94, Char.ofNat 96, Char.ofNat 91,
   Char.ofNat 93]

/-- A character admitted by the `[^\s<>"{}|\\^`\[\]]` class of `URL_REGEX`. -/
def urlAllowedChar (c : Char) : Bool :=
  !jsWs c && !urlExcludedChars.contains c

/-- Case-insensitive literal match (the regex `i` flag): strip `pat` from the
front of `cs`, returning the matched original characters and the rest. -/
def stripCI : Chars → Chars → Option (Chars × Chars)
  | [], cs => some ([], cs)
  | _ :: _, [] => none
  | p :: ps, c :: cs =>
    if c.toLower = p then
      match stripCI ps cs with
      | some (m, r) => some (c :: m, r)
      | none => none
    else none

/-- After the scheme, require `://` then one or more allowed characters
(greedy), returning the whole match. -/
def matchAfterScheme (mPre : Chars) (r : Chars) : Option Chars :=
  match stripCI "://".toList r with
  | none => none
  | some (m2, r2) =>
    let body := r2.takeWhile urlAllowedChar
    if body = [] then none else some (mPre ++ m2 ++ body)

/-- Try `URL_REGEX` anchored at the start of `cs`: `http` case-insensitively,
a greedy optional `s` (with backtracking), `://`, then the greedy character
class. -/
def matchUrlAt (cs : Chars) : Option Chars :=
  match stripCI "http".toList cs with
  | none => none
  | some (m1, r1) =>
    match r1 with
    | [] => matchAfterScheme m1 []
    | c :: r1' =>
      if c.toLower = 's' then
        match matchAfterScheme (m1 ++ [c]) r1' with
        | some res => some res
        | none => matchAfterScheme m1 r1
      else matchAfterScheme m1 r1

/-- Leftmost match of `URL_REGEX` (JavaScript `text.match(URL_REGEX)` with no
global flag): scan positions left to right, first position that matches
wins. -/
def firstUrlMatch : Chars → Option Chars
  | [] => none
  | c :: cs =>
    match matchUrlAt (c :: cs) with
    | some m => some m
    | none => firstUrlMatch cs

/-- Source `telegram.js` lines 23-27 (`extractUrl`): a falsy argument (absent
or empty text) yields null, otherwise the first `URL_REGEX` match. -/
def extractUrl (text : Option Chars) : Option Chars :=
  match text with
  | none => none
  | some cs => if cs = [] then none else firstUrlMatch cs

/-- Modelled from the spec: after the scheme of the spec's asserted pattern,
require `://` then one or more non-whitespace characters. -/
def specAfterScheme (mPre : Chars) (r : Chars) : Option Chars :=
  match stripCI "://".toList r with
  | none => none
  | some (m2, r2) =>
    let body := r2.takeWhile (fun c => !jsWs c)
    if body = [] then none else some (mPre ++ m2 ++ body)

/-- Modelled from the spec: the extraction pattern the spec asserts,
`https?://` followed by one or more non-whitespace characters, anchored at
the start of `cs`.  Declared only to compare with `extractUrl`, which is the
transcription of the source regex. -/
def specMatchUrlAt (cs : Chars) : Option Chars :=
  match stripCI "http".toList cs with
  | none => none
  | some (m1, r1) =>
    match r1 with
    | [] => specAfterScheme m1 []
    | c :: r1' =>
      if c.toLower = 's' then
        match specAfterScheme (m1 ++ [c]) r1' with
        | some res => some res
        | none => specAfterScheme m1 r1
      else specAfterScheme m1 r1

/-- Modelled from the spec: leftmost occurrence of the spec's pattern. -/
def specFirstUrlMatch : Chars → Option Chars
  | [] => none
  | c :: cs =>
    match specMatchUrlAt (c :: cs) with
    | some m => some m
    | none => specFirstUrlMatch cs

/-- Modelled from the spec: the candidate-url extraction the spec describes,
compared against the source's `extractUrl`. -/
def specExtractUrl (text : Option Chars) : Option Chars :=
  match text with
  | none => none
  | some cs => if cs = [] then none else specFirstUrlMatch cs

/-- The incoming Telegram message as `handleUpdate` reads it: chat id and the
optional `text` / `caption` fields. -/
structure MsgIn where
  chatId : Int
  text : Option Chars
  caption : Option Chars

/-- Which reply `sendMessage` is asked to deliver (reply wording is
free-form; only the branch identity matters). -/
inductive ReplyKind where
  | welcome
  | unknownCommand
  | savedOk
  | queuedRetry

/-- The spec-level outcome of a submission: `Saved`, `Queued`, `Ignored`, or
`Faulted` when an exception escapes the handler. -/
inductive Outcome where
  | Saved
  | Queued
  | Ignored
  | Faulted

/-- Externally visible effects of one `handleUpdate` invocation. -/
structure Effects where
  outcome : Outcome
  fetchedUrl : Option Chars
  bookmarkBuilt : Option JsValue
  queuePuts : List (Chars × JsValue)
  replies : List (Int × ReplyKind)

/-- Source `telegram.js` line 56: `message.text || message.caption || ''`. -/
def resolveText (m : MsgIn) : Chars :=
  match truthyStr m.text with
  | some t => t
  | none =>
    match truthyStr m.caption with
    | some c => c
    | none => []

/-- Turn a truthy-filtered optional string into the JavaScript value of a
`x || undefined` field initializer. -/
def undefOr : Option Chars → JsValue
  | some s => .str s
  | none => .undefV

/-- Source `telegram.js` lines 91-101: the bookmark object literal, with the
fresh uuid, timestamp and chat id passed in. -/
def mkBookmark (freshId : Chars) (submittedUrl : Chars) (meta : ResolvedMeta)
    (ts : Chars) (chatId : Int) : JsValue :=
  .obj [("id".toList, .str freshId),
        ("url".toList, .str (jsOrStr meta.url submittedUrl)),
        ("title".toList, undefOr (truthyStr meta.title)),
        ("description".toList, undefOr (truthyStr meta.description)),
        ("image".toList, undefOr (truthyStr meta.image)),
        ("tags".toList, .arr []),
        ("source".toList, .str "telegram".toList),
        ("timestamp".toList, .str ts),
        ("chat_id".toList, .num chatId)]

/-- Source `telegram.js` line 116: the retry-queue key for a bookmark id. -/
def retryKeyOf (id : Chars) : Chars := "retry:".toList ++ id

/-- Source `telegram.js` lines 117-122: the retry entry object literal. -/
def retryEntryOf (bookmark : JsValue) (errMsg : Chars) (createdAt : Chars) : JsValue :=
  .obj [("bookmark".toList, bookmark),
        ("attempts".toList, .num 1),
        ("lastError".toList, .str errMsg),
        ("createdAt".toList, .str createdAt)]

/-- Source `telegram.js` lines 51-132 (`handleUpdate`): resolve the text,
answer commands, extract the first url (none: ignore silently), resolve
metadata (an `InvalidUrlError` escapes uncaught, `Faulted`), build the
bookmark, try to save it; on any thrown save error put a fresh retry entry
under `retry:<id>` and reply queued, otherwise reply saved.  The save
outcome oracle `saveRes` is `none` on success or the thrown error message;
`freshId`, `ts` and `now2` stand for `crypto.randomUUID()` and the two
`new Date().toISOString()` calls. -/
def handleUpdate (update : Option MsgIn) (up : UrlParse) (net : FetchOutcome)
    (freshId ts now2 : Chars) (saveRes : Option Chars) : Effects :=
  match update with
  | none => ⟨.Ignored, none, none, [], []⟩
  | some m =>
    let text := resolveText m
    if text.head? = some '/' then
      if (text.takeWhile (fun c => !(c = ' '))).map Char.toLower = "/start".toList then
        ⟨.Ignored, none, none, [], [(m.chatId, .welcome)]⟩
      else ⟨.Ignored, none, none, [], [(m.chatId, .unknownCommand)]⟩
    else
      match extractUrl (some text) with
      | none => ⟨.Ignored, none, none, [], []⟩
      | some url =>
        match fetchMetadata up url net with
        | .invalidUrl => ⟨.Faulted, some url, none, [], []⟩
        | .ok meta =>
          let bookmark := mkBookmark freshId url meta ts m.chatId
          match saveRes with
          | none => ⟨.Saved, some url, some bookmark, [], [(m.chatId, .savedOk)]⟩
          | some errMsg =>
            ⟨.Queued, some url, some bookmark,
             [(retryKeyOf freshId, retryEntryOf bookmark errMsg now2)],
             [(m.chatId, .queuedRetry)]⟩

/-- Source `scheduled.js` line 3. -/
def sweepMaxAttempts : Int := 3

/-- A stored retry entry as `scheduled.js` destructures it after
`JSON.parse`: the bookmark replayed verbatim, the attempt count, and the
bookkeeping fields the spread `...retryData` preserves. -/
structure RetryData where
  bookmark : JsValue
  attempts : Int
  lastError : Option Chars
  createdAt : Option Chars
  lastAttempt : Option Chars

/-- The KV retry-queue keyspace, as a key-value association. -/
abbrev RetryQueue := List (Chars × RetryData)

/-- KV `get`. -/
def qget (q : RetryQueue) (k : Chars) : Option RetryData := q.lookup k

/-- KV `delete`. -/
def qdelete (q : RetryQueue) (k : Chars) : RetryQueue :=
  q.filter (fun p => !(p.1 = k))

/-- KV `put` (overwrite). -/
def qput (q : RetryQueue) (k : Chars) (v : RetryData) : RetryQueue :=
  (k, v) :: qdelete q k

/-- Which of the per-key external KV calls of one sweep iteration throw, the
rest behaving normally: `get`, any `delete`, or the `put` can each reject. -/
inductive KeyChaos where
  | calm
  | getThrows
  | deleteThrows (msg : Chars)
  | putThrows

/-- State threaded through one sweep: the queue plus the trace of keys whose
`saveBookmark` was attempted and of keys whose iteration hit the outer
catch-and-log. -/
structure SweepState where
  queue : RetryQueue
  attempted : List Chars
  errorsLogged : List Chars

/-- The inner `catch` of `scheduled.js` lines 29-46, entered with the thrown
error message `e`: at `attempts >= MAX_ATTEMPTS` delete the key (a throwing
delete escapes to the outer catch), otherwise put the entry back with
`attempts + 1`, the error message and the attempt time (a throwing put
escapes to the outer catch). -/
def sweepCatch (ch : KeyChaos) (now : Chars) (st : SweepState) (key : Chars)
    (rd : RetryData) (e : Chars) : SweepState :=
  if sweepMaxAttempts ≤ rd.attempts then
    match ch with
    | .deleteThrows _ => { st with errorsLogged := st.errorsLogged ++ [key] }
    | _ => { st with queue := qdelete st.queue key }
  else
    match ch with
    | .putThrows => { st with errorsLogged := st.errorsLogged ++ [key] }
    | _ =>
      { st with
        queue := qput st.queue key
          ⟨rd.bookmark, rd.attempts + 1, some e, rd.createdAt, some now⟩ }

/-- One iteration of the `for` loop of `scheduled.js` lines 15-51: read the
entry (a throwing get reaches only the outer catch), skip a missing key,
attempt the save; on success delete the key (a throwing delete lands in the
inner catch with its error), on failure run the inner catch. -/
def processEntry (save : Chars → Except Chars PUnit) (chaos : Chars → KeyChaos)
    (now : Chars) (st : SweepState) (key : Chars) : SweepState :=
  match chaos key with
  | .getThrows => { st with errorsLogged := st.errorsLogged ++ [key] }
  | ch =>
    match qget st.queue key with
    | none => st
    | some rd =>
      let st1 := { st with attempted := st.attempted ++ [key] }
      match save key with
      | .ok _ =>
        match ch with
        | .deleteThrows m => sweepCatch ch now st1 key rd m
        | _ => { st1 with queue := qdelete st1.queue key }
      | .error e => sweepCatch ch now st1 key rd e

/-- Source `scheduled.js` lines 9-52 (`handleScheduled`): iterate the listed
retry keys, each iteration isolated by its own catch.  `keys` is the list
returned by `RETRY_QUEUE.list` with the retry prefix, `save` the per-key
outcome of `github.saveBookmark`, `chaos` the per-key KV failure behavior,
and `now` the `new Date().toISOString()` of this sweep. -/
def handleScheduled (save : Chars → Except Chars PUnit) (chaos : Chars → KeyChaos)
    (now : Chars) (keys : List Chars) (q : RetryQueue) : SweepState :=
  keys.foldl (processEntry save chaos now) ⟨q, [], []⟩

/-- The disposition of one key's entry after its sweep iteration, as a
function of that key's own chaos behavior, save outcome and stored entry
alone (used to state that one iteration depends on nothing else). -/
def entryAfter (ch : KeyChaos) (sv : Except Chars PUnit) (now : Chars)
    (entry : Option RetryData) : Option RetryData :=
  match ch with
  | .getThrows => entry
  | _ =>
    match entry with
    | none => none
    | some rd =>
      match sv with
      | .ok _ =>
        match ch with
        | .deleteThrows m =>
          if sweepMaxAttempts ≤ rd.attempts then entry
          else some ⟨rd.bookmark, rd.attempts + 1, some m, rd.createdAt, some now⟩
        | _ => none
      | .error e =>
        if sweepMaxAttempts ≤ rd.attempts then
          match ch with
          | .deleteThrows _ => entry
          | _ => none
        else
          match ch with
          | .putThrows => entry
          | _ => some ⟨rd.bookmark, rd.attempts + 1, some e, rd.createdAt, some now⟩

/-- Whether one sweep iteration reaches its `saveBookmark` call, again a
function of the key's own data only. -/
def attemptMade (ch : KeyChaos) (entry : Option RetryData) : Bool :=
  match ch with
  | .getThrows => false
  | _ => entry.isSome

/-- Whether one sweep iteration ends in the outer catch-and-log. -/
def errorLogged (ch : KeyChaos) (sv : Except Chars PUnit)
    (entry : Option RetryData) : Bool :=
  match ch with
  | .getThrows => true
  | _ =>
    match entry with
    | none => false
    | some rd =>
      match sv with
      | .ok _ =>
        match ch with
        | .deleteThrows _ => decide (sweepMaxAttempts ≤ rd.attempts)
        | _ => false
      | .error _ =>
        if sweepMaxAttempts ≤ rd.attempts then
          match ch with
          | .deleteThrows _ => true
          | _ => false
        else
          match ch with
          | .putThrows => true
          | _ => false

theorem splitNl_ne_nil (s : Chars) : splitNl s ≠ [] := by
  induction s with
  | nil => simp [splitNl]
  | cons c cs ih =>
    simp only [splitNl]
    split
    · simp
    · cases h : splitNl cs with
      | nil => simp
      | cons p ps => simp

theorem splitNl_append_nl (x rest : Chars) (hx : ∀ c ∈ x, ¬(c = '\n')) :
    splitNl (x ++ '\n' :: rest) = x :: splitNl rest := by
  induction x with
  | nil => simp [splitNl]
  | cons c x' ih =>
    have hc : ¬(c = '\n') := hx c (by simp)
    have ih' := ih (fun d hd => hx d (by simp [hd]))
    simp only [List.cons_append, splitNl, if_neg hc, List.append_eq, ih']

theorem splitNl_no_nl (x : Chars) (hx : ∀ c ∈ x, ¬(c = '\n')) :
    splitNl x = [x] := by
  induction x with
  | nil => simp [splitNl]
  | cons c x' ih =>
    have hc : ¬(c = '\n') := hx c (by simp)
    have ih' := ih (fun d hd => hx d (by simp [hd]))
    simp only [splitNl, if_neg hc, ih']

theorem splitNl_joinNl (ls : List Chars) (hne : ls ≠ [])
    (h : ∀ l ∈ ls, ∀ c ∈ l, ¬(c = '\n')) : splitNl (joinNl ls) = ls := by
  induction ls with
  | nil => exact absurd rfl hne
  | cons x xs ih =>
    cases xs with
    | nil => simpa [joinNl] using splitNl_no_nl x (h x (by simp))
    | cons y ys =>
      have hx : ∀ c ∈ x, ¬(c = '\n') := h x (by simp)
      have hrest : ∀ l ∈ y :: ys, ∀ c ∈ l, ¬(c = '\n') := by
        intro l hl
        exact h l (by simp [hl])
      have := ih (by simp) hrest
      simp only [joinNl, splitNl_append_nl x _ hx, this]

theorem dropWhile_eq_self_of_head? {p : Char → Bool} {l : Chars} {c : Char}
    (hd : l.head? = some c) (hc : p c = false) : l.dropWhile p = l := by
  cases l with
  | nil => simp at hd
  | cons a t =>
    simp only [List.head?_cons, Option.some.injEq] at hd
    subst hd
    simp [List.dropWhile_cons, hc]

theorem lineOk_ne_nil {l : Chars} (h : lineOkB l = true) : l ≠ [] := by
  intro he
  subst he
  simp [lineOkB] at h

theorem lineOk_no_nl {l : Chars} (h : lineOkB l = true) : ∀ c ∈ l, ¬(c = '\n') := by
  intro c hc he
  subst he
  simp only [lineOkB, Bool.and_eq_true, List.all_eq_true] at h
  have := h.1.1.2 '\n' hc
  simp at this

theorem lineOk_head {l : Chars} (h : lineOkB l = true) :
    ∃ c, l.head? = some c ∧ jsWs c = false := by
  simp only [lineOkB, Bool.and_eq_true] at h
  have h2 := h.1.2
  cases hh : l.head? with
  | none => rw [hh] at h2; simp at h2
  | some c =>
    refine ⟨c, rfl, ?_⟩
    rw [hh] at h2
    simpa using h2

theorem lineOk_revHead {l : Chars} (h : lineOkB l = true) :
    ∃ c, l.reverse.head? = some c ∧ jsWs c = false := by
  simp only [lineOkB, Bool.and_eq_true] at h
  have h2 := h.2
  cases hh : l.reverse.head? with
  | none => rw [hh] at h2; simp at h2
  | some c =>
    refine ⟨c, rfl, ?_⟩
    rw [hh] at h2
    simpa using h2

theorem joinNl_ne_nil (ls : List Chars) (hne : ls ≠ [])
    (h : ∀ l ∈ ls, l ≠ []) : joinNl ls ≠ [] := by
  cases ls with
  | nil => exact absurd rfl hne
  | cons x xs =>
    cases xs with
    | nil => simpa [joinNl] using h x (by simp)
    | cons y ys =>
      have hx := h x (by simp)
      cases x with
      | nil => exact absurd rfl hx
      | cons c t => simp [joinNl]

theorem joinNl_head? (x : Chars) (xs : List Chars) (hx : x ≠ []) :
    (joinNl (x :: xs)).head? = x.head? := by
  cases xs with
  | nil => rfl
  | cons y ys =>
    cases x with
    | nil => exact absurd rfl hx
    | cons c t => simp [joinNl]

theorem joinNl_revHead (ls : List Chars) (hne : ls ≠ [])
    (h : ∀ l ∈ ls, lineOkB l = true) :
    ∃ c, (joinNl ls).reverse.head? = some c ∧ jsWs c = false := by
  induction ls with
  | nil => exact absurd rfl hne
  | cons x xs ih =>
    cases xs with
    | nil =>
      simpa [joinNl] using lineOk_revHead (h x (by simp))
    | cons y ys =>
      have hrest : ∀ l ∈ y :: ys, lineOkB l = true := fun l hl => h l (by simp [hl])
      obtain ⟨c, hc, hcws⟩ := ih (by simp) hrest
      refine ⟨c, ?_, hcws⟩
      have hJ : joinNl (y :: ys) ≠ [] :=
        joinNl_ne_nil _ (by simp) (fun l hl => lineOk_ne_nil (hrest l hl))
      have : (joinNl (x :: y :: ys)).reverse
          = (joinNl (y :: ys)).reverse ++ ('\n' :: x.reverse) := by
        simp [joinNl, List.reverse_append]
      rw [this, List.head?_append, hc]
      rfl

theorem trimJs_line_self {l : Chars} (h : lineOkB l = true) : trimJs l = l := by
  obtain ⟨c, hc, hcws⟩ := lineOk_head h
  obtain ⟨c', hc', hcws'⟩ := lineOk_revHead h
  unfold trimJs
  rw [dropWhile_eq_self_of_head? hc hcws, dropWhile_eq_self_of_head? hc' hcws',
    List.reverse_reverse]

theorem trimJs_serialize (ls : List Chars) (hne : ls ≠ [])
    (h : ∀ l ∈ ls, lineOkB l = true) :
    trimJs (joinNl ls ++ ['\n']) = joinNl ls := by
  have hnnil : ∀ l ∈ ls, l ≠ [] := fun l hl => lineOk_ne_nil (h l hl)
  have hJ : joinNl ls ≠ [] := joinNl_ne_nil ls hne hnnil
  obtain ⟨x, xs, rfl⟩ : ∃ x xs, ls = x :: xs := by
    cases ls with
    | nil => exact absurd rfl hne
    | cons x xs => exact ⟨x, xs, rfl⟩
  obtain ⟨c, hc, hcws⟩ := lineOk_head (h x (by simp))
  have hfront : (joinNl (x :: xs) ++ ['\n']).head? = some c := by
    rw [List.head?_append, joinNl_head? x xs (hnnil x (by simp)), hc]
    rfl
  obtain ⟨c', hc', hcws'⟩ := joinNl_revHead (x :: xs) (by simp) h
  unfold trimJs
  rw [dropWhile_eq_self_of_head? hfront hcws]
  have hrev : (joinNl (x :: xs) ++ ['\n']).reverse
      = '\n' :: (joinNl (x :: xs)).reverse := by simp
  rw [hrev]
  have hwsnl : jsWs '\n' = true := by decide
  rw [List.dropWhile_cons, if_pos hwsnl, dropWhile_eq_self_of_head? hc' hcws',
    List.reverse_reverse]

theorem mapM_parse_stringify (c : LineCodec α)
    (hc : ∀ r, c.parse (c.stringify r) = some r) (l : List α) :
    ((l.map c.stringify).map c.parse).mapM id = some l := by
  induction l with
  | nil => rfl
  | cons a t ih =>
    simp only [List.map_cons, List.mapM_cons, ih, hc a, id]
    rfl

/-- Claim C6: the Store Adapter serializes a record list as one
self-contained line per record, joined by newlines with exactly one trailing
newline, and `getBookmarkFile`'s decode (trim, split on newline, drop blank
lines, parse each line) recovers exactly the original list, for any line
codec with the properties `JSON.stringify`/`JSON.parse` provide. -/
theorem claim_C6_serialization_roundtrip (c : LineCodec α) (l : List α)
    (hc : ∀ r, c.parse (c.stringify r) = some r ∧ lineOkB (c.stringify r) = true) :
    decodeBookmarks c (serializeBookmarks c l) = some l ∧
    (serializeBookmarks c l).reverse.head? = some '\n' ∧
    (∀ d, l ≠ [] → (serializeBookmarks c l).reverse.tail.head? = some d →
      ¬(d = '\n')) := by
  cases l with
  | nil =>
    refine ⟨rfl, rfl, ?_⟩
    intro d hne
    exact absurd rfl hne
  | cons a t =>
    have hlines : ∀ line ∈ (a :: t).map c.stringify, lineOkB line = true := by
      intro line hline
      obtain ⟨r, _, rfl⟩ := List.mem_map.mp hline
      exact (hc r).2
    have hnl : ∀ line ∈ (a :: t).map c.stringify, ∀ ch ∈ line, ¬(ch = '\n') :=
      fun line hline => lineOk_no_nl (hlines line hline)
    have hmapne : (a :: t).map c.stringify ≠ [] := by simp
    constructor
    · unfold decodeBookmarks serializeBookmarks
      rw [trimJs_serialize _ hmapne hlines, splitNl_joinNl _ hmapne hnl]
      rw [List.filter_eq_self.mpr ?keep]
      case keep =>
        intro line hline
        rw [trimJs_line_self (hlines line hline)]
        simpa using lineOk_ne_nil (hlines line hline)
      exact mapM_parse_stringify c (fun r => (hc r).1) (a :: t)
    constructor
    · simp [serializeBookmarks]
    · intro d _ hd
      obtain ⟨c', hc', hcws'⟩ := joinNl_revHead _ hmapne hlines
      rw [show (serializeBookmarks c (a :: t)).reverse.tail
            = (joinNl ((a :: t).map c.stringify)).reverse by
          simp [serializeBookmarks]] at hd
      rw [hc'] at hd
      cases hd
      intro he
      subst he
      simp [jsWs] at hcws'

/-- Witness for claim C6 on a concrete codec and record list. -/
theorem claim_C6_serialization_roundtrip_witness :
    decodeBookmarks boolCodec (serializeBookmarks boolCodec [true, false])
      = some [true, false] ∧
    (serializeBookmarks boolCodec [true, false]).reverse.head? = some '\n' ∧
    (∀ d, ([true, false] : List Bool) ≠ [] →
      (serializeBookmarks boolCodec [true, false]).reverse.tail.head? = some d →
      ¬(d = '\n')) :=
  claim_C6_serialization_roundtrip boolCodec [true, false] (by decide)

theorem saveGo_writes_length_le (c : LineCodec α) (b : α)
    (reads : Nat → StoreRead) (writeRes : Nat → WriteResult) (rand : Nat → ℚ) :
    ∀ fuel attempt,
      ((saveGo c b reads writeRes rand attempt fuel).1.writes).length ≤ fuel := by
  intro fuel
  induction fuel with
  | zero => intro attempt; simp [saveGo]
  | succ n ih =>
    intro attempt
    simp only [saveGo]
    cases hg : getBookmarkFile c (reads attempt) with
    | error st =>
      by_cases h409 : st = some 409
      · simp only [h409, if_pos rfl]
        exact Nat.le_succ_of_le (ih (attempt + 1))
      · simp [h409]
    | ok pr =>
      obtain ⟨recs, sha⟩ := pr
      cases hw : writeRes attempt with
      | ok => simp
      | err st =>
        by_cases h409 : st = some 409
        · simp only [h409, if_pos rfl, List.length_cons]
          exact Nat.succ_le_succ (ih (attempt + 1))
        · simp [h409]

/-- Claim C1: on a 409 revision-mismatch conflict, `saveBookmark` re-reads
the records and token, re-appends the pending record on the fresh records,
and retries the conditional write, with randomized backoff between attempts;
at most 3 conditional writes are ever issued, and three straight conflicts
end in the persistence error with no successful write. -/
theorem claim_C1_conflict_retry (c : LineCodec α) (b : α)
    (reads : Nat → StoreRead) (writeRes : Nat → WriteResult) (rand : Nat → ℚ)
    (content sha : Nat → Chars) (recs : Nat → List α)
    (hr : ∀ i, i < 3 → reads i = .ok (content i) (sha i))
    (hd : ∀ i, i < 3 → decodeBookmarks c (content i) = some (recs i))
    (hw : ∀ i, i < 3 → writeRes i = .err (some 409)) :
    (saveBookmark c b reads writeRes rand).2 = .persistenceError ∧
    (saveBookmark c b reads writeRes rand).1.writes =
      [⟨serializeBookmarks c (recs 0 ++ [b]), shaOrUndefined (some (sha 0))⟩,
       ⟨serializeBookmarks c (recs 1 ++ [b]), shaOrUndefined (some (sha 1))⟩,
       ⟨serializeBookmarks c (recs 2 ++ [b]), shaOrUndefined (some (sha 2))⟩] ∧
    (saveBookmark c b reads writeRes rand).1.backoffs =
      [rand 0 * 500 + 200, rand 1 * 500 + 200, rand 2 * 500 + 200] ∧
    ((∀ i, 0 ≤ rand i ∧ rand i < 1) →
      ∀ d ∈ (saveBookmark c b reads writeRes rand).1.backoffs, 200 ≤ d ∧ d < 700) ∧
    (∀ (reads' : Nat → StoreRead) (writeRes' : Nat → WriteResult) (rand' : Nat → ℚ),
      ((saveBookmark c b reads' writeRes' rand').1.writes).length ≤ 3) := by
  have h0 := hr 0 (by norm_num)
  have h1 := hr 1 (by norm_num)
  have h2 := hr 2 (by norm_num)
  have d0 := hd 0 (by norm_num)
  have d1 := hd 1 (by norm_num)
  have d2 := hd 2 (by norm_num)
  have w0 := hw 0 (by norm_num)
  have w1 := hw 1 (by norm_num)
  have w2 := hw 2 (by norm_num)
  have hrun : saveBookmark c b reads writeRes rand =
      (⟨[⟨serializeBookmarks c (recs 0 ++ [b]), shaOrUndefined (some (sha 0))⟩,
         ⟨serializeBookmarks c (recs 1 ++ [b]), shaOrUndefined (some (sha 1))⟩,
         ⟨serializeBookmarks c (recs 2 ++ [b]), shaOrUndefined (some (sha 2))⟩],
        [rand 0 * 500 + 200, rand 1 * 500 + 200, rand 2 * 500 + 200]⟩,
       .persistenceError) := by
    simp [saveBookmark, maxRetries, saveGo, h0, h1, h2, d0, d1, d2, w0, w1, w2,
      getBookmarkFile]
  refine ⟨by rw [hrun], by rw [hrun], by rw [hrun], ?_, ?_⟩
  · intro hrand d hdmem
    rw [hrun] at hdmem
    simp only [List.mem_cons, List.not_mem_nil, or_false] at hdmem
    have key : ∀ i : Nat, 200 ≤ rand i * 500 + 200 ∧ rand i * 500 + 200 < 700 := by
      intro i
      have h01 := hrand i
      constructor
      · nlinarith [h01.1]
      · nlinarith [h01.2]
    rcases hdmem with h | h | h <;> rw [h] <;> exact key _
  · intro reads' writeRes' rand'
    exact saveGo_writes_length_le c b reads' writeRes' rand' maxRetries 0

/-- Witness for claim C1: a concrete run in which all three conditional
writes conflict. -/
theorem claim_C1_conflict_retry_witness :
    (saveBookmark boolCodec true (fun _ => .ok ['t', '\n'] ['s'])
      (fun _ => .err (some 409)) (fun _ => (1 : ℚ) / 2)).2
        = .persistenceError ∧
    (saveBookmark boolCodec true (fun _ => .ok ['t', '\n'] ['s'])
      (fun _ => .err (some 409)) (fun _ => (1 : ℚ) / 2)).1.writes =
      [⟨serializeBookmarks boolCodec [true, true], shaOrUndefined (some ['s'])⟩,
       ⟨serializeBookmarks boolCodec [true, true], shaOrUndefined (some ['s'])⟩,
       ⟨serializeBookmarks boolCodec [true, true], shaOrUndefined (some ['s'])⟩] ∧
    (saveBookmark boolCodec true (fun _ => .ok ['t', '\n'] ['s'])
      (fun _ => .err (some 409)) (fun _ => (1 : ℚ) / 2)).1.backoffs =
      [(1 : ℚ) / 2 * 500 + 200, (1 : ℚ) / 2 * 500 + 200, (1 : ℚ) / 2 * 500 + 200] := by
  have h := claim_C1_conflict_retry boolCodec true (fun _ => .ok ['t', '\n'] ['s'])
    (fun _ => .err (some 409)) (fun _ => (1 : ℚ) / 2)
    (fun _ => ['t', '\n']) (fun _ => ['s']) (fun _ => [true])
    (fun _ _ => rfl) (fun _ _ => rfl) (fun _ _ => rfl)
  exact ⟨h.1, h.2.1, h.2.2.1⟩

/-- Claim C9: a 404 on the blob read yields the empty record list with a
null revision token, any other read error is rethrown, and a save performed
on top of a 404 read issues the conditional write with no expected prior
revision and the file content holding only the new record. -/
theorem claim_C9_missing_file (c : LineCodec α) (b : α)
    (reads : Nat → StoreRead) (writeRes : Nat → WriteResult) (rand : Nat → ℚ)
    (h404 : reads 0 = .err (some 404)) (hwok : writeRes 0 = .ok) :
    getBookmarkFile c (.err (some 404)) = .ok ([], none) ∧
    (∀ st, ¬(st = some 404) → getBookmarkFile c (.err st) = .error st) ∧
    saveBookmark c b reads writeRes rand =
      (⟨[⟨serializeBookmarks c [b], none⟩], []⟩, .success) := by
  refine ⟨by simp [getBookmarkFile], ?_, ?_⟩
  · intro st hst
    simp [getBookmarkFile, hst]
  · simp [saveBookmark, maxRetries, saveGo, h404, hwok, getBookmarkFile,
      shaOrUndefined]

/-- Witness for claim C9 on a concrete adapter run. -/
theorem claim_C9_missing_file_witness :
    saveBookmark boolCodec false (fun _ => .err (some 404)) (fun _ => .ok)
      (fun _ => 0) =
      (⟨[⟨serializeBookmarks boolCodec [false], none⟩], []⟩, .success) :=
  (claim_C9_missing_file boolCodec false (fun _ => .err (some 404))
    (fun _ => .ok) (fun _ => 0) rfl rfl).2.2

theorem handleUpdate_ok_meta (m : MsgIn) (up : UrlParse) (net : FetchOutcome)
    (freshId ts now2 : Chars) (saveRes : Option Chars) (url : Chars)
    (meta : ResolvedMeta)
    (hcmd : ¬(resolveText m).head? = some '/')
    (hurl : extractUrl (some (resolveText m)) = some url)
    (hmeta : fetchMetadata up url net = .ok meta) :
    handleUpdate (some m) up net freshId ts now2 saveRes =
      match saveRes with
      | none =>
        ⟨.Saved, some url, some (mkBookmark freshId url meta ts m.chatId), [],
         [(m.chatId, .savedOk)]⟩
      | some errMsg =>
        ⟨.Queued, some url, some (mkBookmark freshId url meta ts m.chatId),
         [(retryKeyOf freshId,
           retryEntryOf (mkBookmark freshId url meta ts m.chatId) errMsg now2)],
         [(m.chatId, .queuedRetry)]⟩ := by
  simp [handleUpdate, hcmd, hurl, hmeta]

theorem getField_url_mkBookmark (freshId u : Chars) (meta : ResolvedMeta)
    (ts : Chars) (cid : Int) :
    getField "url".toList (mkBookmark freshId u meta ts cid)
      = some (.str (jsOrStr meta.url u)) := by
  simp [mkBookmark, getField, List.lookup]

theorem getField_id_mkBookmark (freshId u : Chars) (meta : ResolvedMeta)
    (ts : Chars) (cid : Int) :
    getField "id".toList (mkBookmark freshId u meta ts cid)
      = some (.str freshId) := by
  simp [mkBookmark, getField, List.lookup]

theorem getField_extraction_mkBookmark (freshId u : Chars) (meta : ResolvedMeta)
    (ts : Chars) (cid : Int) :
    getField "extraction_status".toList (mkBookmark freshId u meta ts cid)
      = none := by
  simp [mkBookmark, getField, List.lookup]

theorem getField_title_mkBookmark (freshId u : Chars) (meta : ResolvedMeta)
    (ts : Chars) (cid : Int) :
    getField "title".toList (mkBookmark freshId u meta ts cid)
      = some (undefOr (truthyStr meta.title)) := by
  simp [mkBookmark, getField, List.lookup]

theorem getField_description_mkBookmark (freshId u : Chars) (meta : ResolvedMeta)
    (ts : Chars) (cid : Int) :
    getField "description".toList (mkBookmark freshId u meta ts cid)
      = some (undefOr (truthyStr meta.description)) := by
  simp [mkBookmark, getField, List.lookup]

theorem getField_image_mkBookmark (freshId u : Chars) (meta : ResolvedMeta)
    (ts : Chars) (cid : Int) :
    getField "image".toList (mkBookmark freshId u meta ts cid)
      = some (undefOr (truthyStr meta.image)) := by
  simp [mkBookmark, getField, List.lookup]

/-- Claim C10: when the metadata fetch succeeds, the persisted bookmark's
`url` field is the final redirected `response.url`, falling back to the
submitted url only when the resolver result carries no url value. -/
theorem claim_C10_final_url (m : MsgIn) (freshId ts now2 : Chars)
    (saveRes : Option Chars) (protocol respUrl : Chars) (page : PageMeta)
    (url : Chars)
    (hcmd : ¬(resolveText m).head? = some '/')
    (hurl : extractUrl (some (resolveText m)) = some url)
    (hp : protocol = "http:".toList ∨ protocol = "https:".toList) :
    ∃ b, (handleUpdate (some m) (.parses protocol) (.response true respUrl page)
            freshId ts now2 saveRes).bookmarkBuilt = some b ∧
      (¬respUrl = [] → getField "url".toList b = some (.str respUrl)) ∧
      (respUrl = [] → getField "url".toList b = some (.str url)) := by
  have hmeta : fetchMetadata (.parses protocol) url (.response true respUrl page)
      = .ok ⟨firstTruthy [page.ogTitle, page.twTitle, some page.titleText],
             firstTruthy [page.ogDesc, page.twDesc, page.metaDesc],
             firstTruthy [page.ogImage, page.twImage],
             jsOrStr respUrl url, false⟩ := by
    rcases hp with hp | hp <;> simp [fetchMetadata, hp]
  rw [handleUpdate_ok_meta m _ _ freshId ts now2 saveRes url _ hcmd hurl hmeta]
  cases saveRes with
  | none =>
    refine ⟨_, rfl, ?_, ?_⟩
    · intro hne
      rw [getField_url_mkBookmark]
      simp [jsOrStr, hne]
    · intro he
      subst he
      rw [getField_url_mkBookmark]
      simp [jsOrStr]
  | some errMsg =>
    refine ⟨_, rfl, ?_, ?_⟩
    · intro hne
      rw [getField_url_mkBookmark]
      simp [jsOrStr, hne]
    · intro he
      subst he
      rw [getField_url_mkBookmark]
      simp [jsOrStr]

/-- Witness for claim C10 on a concrete redirected fetch. -/
theorem claim_C10_final_url_witness :
    ∃ b, (handleUpdate (some ⟨7, some "see http://a.com".toList, none⟩)
            (.parses "http:".toList)
            (.response true "http://b.com/final".toList
              ⟨none, none, [], none, none, none, none, none⟩)
            "id1".toList "T1".toList "T2".toList none).bookmarkBuilt = some b ∧
      (¬("http://b.com/final".toList : Chars) = [] →
        getField "url".toList b = some (.str "http://b.com/final".toList)) ∧
      (("http://b.com/final".toList : Chars) = [] →
        getField "url".toList b = some (.str "http://a.com".toList)) :=
  claim_C10_final_url ⟨7, some "see http://a.com".toList, none⟩
    "id1".toList "T1".toList "T2".toList none "http:".toList
    "http://b.com/final".toList ⟨none, none, [], none, none, none, none, none⟩
    "http://a.com".toList (by decide) (by decide) (Or.inl rfl)

/-- Claim C3: for a structurally valid http/https URL, every transient
resolver failure (rejected fetch — network error or timeout — or a non-2xx
response) returns normally with `partial = true` and no title, description
or image enrichment. -/
theorem claim_C3_transient_failures (url protocol : Chars) (net : FetchOutcome)
    (hp : protocol = "http:".toList ∨ protocol = "https:".toList)
    (hfail : netFails net = true) :
    ∃ m, fetchMetadata (.parses protocol) url net = .ok m ∧
      m.isPartial = true ∧ m.title = none ∧ m.description = none ∧
      m.image = none := by
  cases net with
  | throws =>
    refine ⟨⟨none, none, none, url, true⟩, ?_, rfl, rfl, rfl, rfl⟩
    rcases hp with hp | hp <;> simp [fetchMetadata, hp]
  | response ok respUrl page =>
    have hok : ok = false := by
      cases ok
      · rfl
      · simp [netFails] at hfail
    subst hok
    refine ⟨⟨none, none, none, jsOrStr respUrl url, true⟩, ?_, rfl, rfl, rfl, rfl⟩
    rcases hp with hp | hp <;> simp [fetchMetadata, hp]

/-- Witness for claim C3: a concrete timed-out fetch. -/
theorem claim_C3_transient_failures_witness :
    ∃ m, fetchMetadata (.parses "http:".toList) "http://e.com".toList .throws
        = .ok m ∧
      m.isPartial = true ∧ m.title = none ∧ m.description = none ∧
      m.image = none :=
  claim_C3_transient_failures "http://e.com".toList "http:".toList .throws
    (Or.inl rfl) rfl

theorem getField_bookmark_retryEntry (b : JsValue) (errMsg createdAt : Chars) :
    getField "bookmark".toList (retryEntryOf b errMsg createdAt) = some b := by
  simp [retryEntryOf, getField, List.lookup]

theorem getField_attempts_retryEntry (b : JsValue) (errMsg createdAt : Chars) :
    getField "attempts".toList (retryEntryOf b errMsg createdAt)
      = some (.num 1) := by
  simp [retryEntryOf, getField, List.lookup]

theorem getField_lastError_retryEntry (b : JsValue) (errMsg createdAt : Chars) :
    getField "lastError".toList (retryEntryOf b errMsg createdAt)
      = some (.str errMsg) := by
  simp [retryEntryOf, getField, List.lookup]

theorem getField_createdAt_retryEntry (b : JsValue) (errMsg createdAt : Chars) :
    getField "createdAt".toList (retryEntryOf b errMsg createdAt)
      = some (.str createdAt) := by
  simp [retryEntryOf, getField, List.lookup]

/-- Claim C4: when the save throws (in particular the exhausted-retries
persistence error), the handler puts one retry entry with `attempts = 1`,
carrying the bookmark, the error message and a creation time, under the key
`retry:` followed by the bookmark's id, and the reported outcome is
`Queued`. -/
theorem claim_C4_queued_on_persistence_error (m : MsgIn) (up : UrlParse)
    (net : FetchOutcome) (freshId ts now2 errMsg url : Chars)
    (meta : ResolvedMeta)
    (hcmd : ¬(resolveText m).head? = some '/')
    (hurl : extractUrl (some (resolveText m)) = some url)
    (hmeta : fetchMetadata up url net = .ok meta) :
    (handleUpdate (some m) up net freshId ts now2 (some errMsg)).outcome
      = .Queued ∧
    ∃ b v,
      (handleUpdate (some m) up net freshId ts now2 (some errMsg)).bookmarkBuilt
        = some b ∧
      getField "id".toList b = some (.str freshId) ∧
      (handleUpdate (some m) up net freshId ts now2 (some errMsg)).queuePuts
        = [("retry:".toList ++ freshId, v)] ∧
      getField "bookmark".toList v = some b ∧
      getField "attempts".toList v = some (.num 1) ∧
      getField "lastError".toList v = some (.str errMsg) ∧
      getField "createdAt".toList v = some (.str now2) := by
  rw [handleUpdate_ok_meta m up net freshId ts now2 (some errMsg) url meta
    hcmd hurl hmeta]
  refine ⟨rfl, mkBookmark freshId url meta ts m.chatId,
    retryEntryOf (mkBookmark freshId url meta ts m.chatId) errMsg now2,
    rfl, getField_id_mkBookmark _ _ _ _ _, rfl,
    getField_bookmark_retryEntry _ _ _, getField_attempts_retryEntry _ _ _,
    getField_lastError_retryEntry _ _ _, getField_createdAt_retryEntry _ _ _⟩

/-- Witness for claim C4 on a concrete failed save. -/
theorem claim_C4_queued_on_persistence_error_witness :
    (handleUpdate (some ⟨9, some "http://w.org/p".toList, none⟩)
      (.parses "http:".toList) .throws "uid7".toList "T1".toList "T2".toList
      (some "Failed to save bookmark after multiple retries due to conflicts.".toList)).outcome
      = .Queued ∧
    ∃ b v,
      (handleUpdate (some ⟨9, some "http://w.org/p".toList, none⟩)
        (.parses "http:".toList) .throws "uid7".toList "T1".toList "T2".toList
        (some "Failed to save bookmark after multiple retries due to conflicts.".toList)).bookmarkBuilt
        = some b ∧
      getField "id".toList b = some (.str "uid7".toList) ∧
      (handleUpdate (some ⟨9, some "http://w.org/p".toList, none⟩)
        (.parses "http:".toList) .throws "uid7".toList "T1".toList "T2".toList
        (some "Failed to save bookmark after multiple retries due to conflicts.".toList)).queuePuts
        = [("retry:".toList ++ "uid7".toList, v)] ∧
      getField "bookmark".toList v = some b ∧
      getField "attempts".toList v = some (.num 1) ∧
      getField "lastError".toList v
        = some (.str "Failed to save bookmark after multiple retries due to conflicts.".toList) ∧
      getField "createdAt".toList v = some (.str "T2".toList) :=
  claim_C4_queued_on_persistence_error ⟨9, some "http://w.org/p".toList, none⟩
    (.parses "http:".toList) .throws "uid7".toList "T1".toList "T2".toList
    "Failed to save bookmark after multiple retries due to conflicts.".toList
    "http://w.org/p".toList ⟨none, none, none, "http://w.org/p".toList, true⟩
    (by decide) (by decide) rfl

theorem matchAfterScheme_ne_nil {mPre r u : Chars}
    (h : matchAfterScheme mPre r = some u) : ¬u = [] := by
  unfold matchAfterScheme at h
  cases hs : stripCI "://".toList r with
  | none => rw [hs] at h; exact absurd h (by simp)
  | some pr =>
    obtain ⟨m2, r2⟩ := pr
    rw [hs] at h
    simp only at h
    by_cases hb : r2.takeWhile urlAllowedChar = []
    · rw [if_pos hb] at h
      exact absurd h (by simp)
    · rw [if_neg hb] at h
      cases h
      intro he
      simp only [List.append_assoc, List.append_eq_nil] at he
      exact hb he.2.2

theorem matchUrlAt_ne_nil {cs u : Chars} (h : matchUrlAt cs = some u) :
    ¬u = [] := by
  unfold matchUrlAt at h
  cases hs : stripCI "http".toList cs with
  | none => rw [hs] at h; exact absurd h (by simp)
  | some pr =>
    obtain ⟨m1, r1⟩ := pr
    rw [hs] at h
    cases r1 with
    | nil => exact matchAfterScheme_ne_nil h
    | cons c r1' =>
      simp only at h
      by_cases hcs : c.toLower = 's'
      · rw [if_pos hcs] at h
        cases ht : matchAfterScheme (m1 ++ [c]) r1' with
        | some res =>
          rw [ht] at h
          cases h
          exact matchAfterScheme_ne_nil ht
        | none =>
          rw [ht] at h
          exact matchAfterScheme_ne_nil h
      · rw [if_neg hcs] at h
        exact matchAfterScheme_ne_nil h

theorem firstUrlMatch_ne_nil {cs u : Chars} (h : firstUrlMatch cs = some u) :
    ¬u = [] := by
  induction cs with
  | nil => exact absurd h (by simp [firstUrlMatch])
  | cons c t ih =>
    unfold firstUrlMatch at h
    cases hm : matchUrlAt (c :: t) with
    | some m =>
      rw [hm] at h
      cases h
      exact matchUrlAt_ne_nil hm
    | none =>
      rw [hm] at h
      exact ih h

theorem extractUrl_ne_nil {t : Option Chars} {u : Chars}
    (h : extractUrl t = some u) : ¬u = [] := by
  cases t with
  | none => exact absurd h (by simp [extractUrl])
  | some cs =>
    rw [show extractUrl (some cs) = if cs = [] then none else firstUrlMatch cs
      from rfl] at h
    by_cases he : cs = []
    · rw [if_pos he] at h; exact absurd h (by simp)
    · rw [if_neg he] at h; exact firstUrlMatch_ne_nil h

/-- Counterexample to claim C5: a submission whose metadata fetch times out
produces a bookmark with no `extraction_status` field at all (the lookup
yields none, not the string `partial`), even though it is saved. -/
theorem claim_C5_counterexample :
    (handleUpdate (some ⟨7, some "http://x.com/a".toList, none⟩)
      (.parses "http:".toList) .throws "id1".toList "T1".toList "T2".toList
      none).outcome = .Saved ∧
    (handleUpdate (some ⟨7, some "http://x.com/a".toList, none⟩)
      (.parses "http:".toList) .throws "id1".toList "T1".toList "T2".toList
      none).bookmarkBuilt
      = some (mkBookmark "id1".toList "http://x.com/a".toList
          ⟨none, none, none, "http://x.com/a".toList, true⟩ "T1".toList 7) ∧
    getField "extraction_status".toList
      (mkBookmark "id1".toList "http://x.com/a".toList
        ⟨none, none, none, "http://x.com/a".toList, true⟩ "T1".toList 7)
      = none := by
  refine ⟨rfl, rfl, ?_⟩
  rw [getField_extraction_mkBookmark]

/-- Claim C5 as amended: when metadata resolution fails transiently and the
save succeeds, the persisted bookmark has a nonempty `url` field and the
submission reports `Saved`; but the record carries no `extraction_status`
field — the failure is visible only through the absent (undefined)
enrichment fields. -/
theorem claim_C5_amended_degraded_save (m : MsgIn) (protocol : Chars)
    (net : FetchOutcome) (freshId ts now2 url : Chars)
    (hcmd : ¬(resolveText m).head? = some '/')
    (hurl : extractUrl (some (resolveText m)) = some url)
    (hp : protocol = "http:".toList ∨ protocol = "https:".toList)
    (hfail : netFails net = true) :
    (handleUpdate (some m) (.parses protocol) net freshId ts now2 none).outcome
      = .Saved ∧
    ∃ b, (handleUpdate (some m) (.parses protocol) net freshId ts now2
            none).bookmarkBuilt = some b ∧
      (∃ s, getField "url".toList b = some (.str s) ∧ ¬s = []) ∧
      getField "extraction_status".toList b = none ∧
      getField "title".toList b = some .undefV ∧
      getField "description".toList b = some .undefV ∧
      getField "image".toList b = some .undefV := by
  have hune : ¬url = [] := extractUrl_ne_nil hurl
  have hmeta : ∃ mu, fetchMetadata (.parses protocol) url net
      = .ok ⟨none, none, none, mu, true⟩ ∧ ¬mu = [] := by
    cases net with
    | throws =>
      refine ⟨url, ?_, hune⟩
      rcases hp with hp | hp <;> simp [fetchMetadata, hp]
    | response ok respUrl page =>
      have hok : ok = false := by
        cases ok
        · rfl
        · simp [netFails] at hfail
      subst hok
      refine ⟨jsOrStr respUrl url, ?_, ?_⟩
      · rcases hp with hp | hp <;> simp [fetchMetadata, hp]
      · unfold jsOrStr
        split
        · exact hune
        · assumption
  obtain ⟨mu, hmeta, hmu⟩ := hmeta
  rw [handleUpdate_ok_meta m _ net freshId ts now2 none url _ hcmd hurl hmeta]
  refine ⟨rfl, mkBookmark freshId url ⟨none, none, none, mu, true⟩ ts m.chatId,
    rfl, ⟨jsOrStr mu url, ?_, ?_⟩, getField_extraction_mkBookmark _ _ _ _ _,
    ?_, ?_, ?_⟩
  · exact getField_url_mkBookmark _ _ _ _ _
  · unfold jsOrStr
    split
    · exact hune
    · exact hmu
  · rw [getField_title_mkBookmark]; rfl
  · rw [getField_description_mkBookmark]; rfl
  · rw [getField_image_mkBookmark]; rfl

/-- Witness for the amended claim C5 on a concrete timed-out fetch. -/
theorem claim_C5_amended_degraded_save_witness :
    (handleUpdate (some ⟨3, none, some "pic http://img.net/1".toList⟩)
      (.parses "https:".toList) .throws "id9".toList "T1".toList "T2".toList
      none).outcome = .Saved ∧
    ∃ b, (handleUpdate (some ⟨3, none, some "pic http://img.net/1".toList⟩)
            (.parses "https:".toList) .throws "id9".toList "T1".toList
            "T2".toList none).bookmarkBuilt = some b ∧
      (∃ s, getField "url".toList b = some (.str s) ∧ ¬s = []) ∧
      getField "extraction_status".toList b = none ∧
      getField "title".toList b = some .undefV ∧
      getField "description".toList b = some .undefV ∧
      getField "image".toList b = some .undefV :=
  claim_C5_amended_degraded_save ⟨3, none, some "pic http://img.net/1".toList⟩
    "https:".toList .throws "id9".toList "T1".toList "T2".toList
    "http://img.net/1".toList (by decide) (by decide) (Or.inr rfl) rfl

/-- Counterexample to claim C8: on the text `http://a<b` the spec's pattern
(scheme then one or more non-whitespace characters) matches `http://a<b`,
but the handler's candidate URL — via the source regex, whose class also
excludes angle brackets and friends — is `http://a`. -/
theorem claim_C8_counterexample :
    specExtractUrl (some "http://a<b".toList) = some "http://a<b".toList ∧
    extractUrl (some "http://a<b".toList) = some "http://a".toList ∧
    (handleUpdate (some ⟨7, some "http://a<b".toList, none⟩)
      (.parses "http:".toList) .throws "id1".toList "T1".toList "T2".toList
      none).fetchedUrl = some "http://a".toList ∧
    ¬(some "http://a".toList = some "http://a<b".toList) := by
  refine ⟨by decide, by decide, rfl, by decide⟩

/-- Claim C8 as amended: the handler's candidate URL is exactly
`extractUrl`'s leftmost match of the source regex — `https?://`
case-insensitively followed by one or more characters that are neither
whitespace nor one of the angle-bracket/quote/brace/pipe/backslash/caret/
backtick/square-bracket characters — and when no such match exists the
submission is ignored with nothing persisted and nothing enqueued. -/
theorem claim_C8_amended_extraction (m : MsgIn) (up : UrlParse)
    (net : FetchOutcome) (freshId ts now2 : Chars) (saveRes : Option Chars)
    (hcmd : ¬(resolveText m).head? = some '/') :
    (extractUrl (some (resolveText m)) = none →
      handleUpdate (some m) up net freshId ts now2 saveRes
        = ⟨.Ignored, none, none, [], []⟩) ∧
    (∀ u, extractUrl (some (resolveText m)) = some u →
      (handleUpdate (some m) up net freshId ts now2 saveRes).fetchedUrl
        = some u) := by
  constructor
  · intro hnone
    simp [handleUpdate, hcmd, hnone]
  · intro u hu
    simp only [handleUpdate, hcmd, if_neg, hu]
    cases hf : fetchMetadata up u net with
    | invalidUrl => simp [hf]
    | ok meta =>
      cases saveRes <;> simp [hf]

/-- Witness for the amended claim C8: a text with no regex match is ignored
with no effects, and a text with a match feeds that match to the resolver. -/
theorem claim_C8_amended_extraction_witness :
    (extractUrl (some (resolveText ⟨5, some "hello there".toList, none⟩)) = none →
      handleUpdate (some ⟨5, some "hello there".toList, none⟩)
        (.parses "http:".toList) .throws "id2".toList "T1".toList "T2".toList
        none = ⟨.Ignored, none, none, [], []⟩) ∧
    (∀ u, extractUrl (some (resolveText ⟨5, some "hello there".toList, none⟩))
        = some u →
      (handleUpdate (some ⟨5, some "hello there".toList, none⟩)
        (.parses "http:".toList) .throws "id2".toList "T1".toList "T2".toList
        none).fetchedUrl = some u) :=
  claim_C8_amended_extraction ⟨5, some "hello there".toList, none⟩
    (.parses "http:".toList) .throws "id2".toList "T1".toList "T2".toList
    none (by decide)

theorem qget_cons_self (t : RetryQueue) (k : Chars) (v : RetryData) :
    qget ((k, v) :: t) k = some v := by
  simp [qget, List.lookup]

theorem qget_qdelete_self (q : RetryQueue) (k : Chars) :
    qget (qdelete q k) k = none := by
  induction q with
  | nil => rfl
  | cons p t ih =>
    obtain ⟨k', v⟩ := p
    by_cases hk : k' = k
    · simp only [qdelete, List.filter_cons, hk, decide_True, Bool.not_true,
        Bool.false_eq_true, if_false]
      exact ih
    · simp only [qdelete, List.filter_cons, hk, decide_False, Bool.not_false,
        if_true, qget, List.lookup]
      have hbk : (k == k') = false := by
        simp only [beq_eq_false_iff_ne, ne_eq]
        exact fun h => hk h.symm
      rw [hbk]
      exact ih

theorem qget_qdelete_ne (q : RetryQueue) (k b : Chars) (hne : ¬b = k) :
    qget (qdelete q k) b = qget q b := by
  induction q with
  | nil => rfl
  | cons p t ih =>
    obtain ⟨k', v⟩ := p
    by_cases hk : k' = k
    · have hbk : (b == k) = false := by
        simp only [beq_eq_false_iff_ne, ne_eq]
        exact hne
      simp only [qdelete, List.filter_cons, hk, decide_True, Bool.not_true,
        Bool.false_eq_true, if_false, qget, List.lookup, hbk]
      exact ih
    · simp only [qdelete, List.filter_cons, hk, decide_False, Bool.not_false,
        if_true, qget, List.lookup]
      cases hbk : (b == k') with
      | true => rfl
      | false => exact ih

theorem qget_qput_self (q : RetryQueue) (k : Chars) (v : RetryData) :
    qget (qput q k v) k = some v := by
  simp [qput, qget, List.lookup]

theorem qget_qput_ne (q : RetryQueue) (k b : Chars) (v : RetryData)
    (hne : ¬b = k) : qget (qput q k v) b = qget q b := by
  have hbk : (b == k) = false := by
    simp only [beq_eq_false_iff_ne, ne_eq]
    exact hne
  simp only [qput, qget, List.lookup, hbk]
  exact qget_qdelete_ne q k b hne

theorem sweep_fail_step (key : Chars) (rd : RetryData) (e now : Chars)
    (q : RetryQueue) (hq : qget q key = some rd) (hlt : rd.attempts < 3) :
    handleScheduled (fun _ => .error e) (fun _ => .calm) now [key] q
      = ⟨qput q key ⟨rd.bookmark, rd.attempts + 1, some e, rd.createdAt,
          some now⟩, [key], []⟩ := by
  have h3 : ¬sweepMaxAttempts ≤ rd.attempts := by
    simp only [sweepMaxAttempts]
    omega
  simp [handleScheduled, processEntry, hq, sweepCatch, h3]

theorem sweep_drop_step (key : Chars) (rd : RetryData) (e now : Chars)
    (q : RetryQueue) (hq : qget q key = some rd)
    (hge : sweepMaxAttempts ≤ rd.attempts) :
    handleScheduled (fun _ => .error e) (fun _ => .calm) now [key] q
      = ⟨qdelete q key, [key], []⟩ := by
  simp [handleScheduled, processEntry, hq, sweepCatch, hge]

theorem sweep_success_step (key : Chars) (rd : RetryData) (now : Chars)
    (q : RetryQueue) (hq : qget q key = some rd) :
    handleScheduled (fun _ => .ok PUnit.unit) (fun _ => .calm) now [key] q
      = ⟨qdelete q key, [key], []⟩ := by
  simp [handleScheduled, processEntry, hq]

theorem sweep_missing_step (save : Chars → Except Chars PUnit) (key now : Chars)
    (q : RetryQueue) (hq : qget q key = none) :
    handleScheduled save (fun _ => .calm) now [key] q = ⟨q, [], []⟩ := by
  simp [handleScheduled, processEntry, hq]

/-- Claim C2: an entry enqueued with `attempts = 1` has its stored count go
1, then 2, then 3 across three failing sweeps (each failure puts it back
incremented, preserving the bookmark); the third failing sweep — attempts
already at the maximum 3 — deletes the key instead of updating it, a
following sweep makes no further save attempt for that entry, and any
successful attempt deletes the key. -/
theorem claim_C2_retry_lifecycle (key : Chars) (rd : RetryData)
    (e1 e2 e3 n1 n2 n3 n4 : Chars) (h1 : rd.attempts = 1) :
    let S1 := handleScheduled (fun _ => Except.error e1) (fun _ => KeyChaos.calm)
      n1 [key] [(key, rd)]
    let S2 := handleScheduled (fun _ => Except.error e2) (fun _ => KeyChaos.calm)
      n2 [key] S1.queue
    let S3 := handleScheduled (fun _ => Except.error e3) (fun _ => KeyChaos.calm)
      n3 [key] S2.queue
    let S4 := handleScheduled (fun _ => Except.error e3) (fun _ => KeyChaos.calm)
      n4 [key] S3.queue
    (∃ rd2, qget S1.queue key = some rd2 ∧ rd2.attempts = 2 ∧
      rd2.bookmark = rd.bookmark ∧ S1.attempted = [key]) ∧
    (∃ rd3, qget S2.queue key = some rd3 ∧ rd3.attempts = 3 ∧
      rd3.bookmark = rd.bookmark ∧ S2.attempted = [key]) ∧
    (qget S3.queue key = none ∧ S3.attempted = [key]) ∧
    S4.attempted = [] ∧
    (∀ (rd' : RetryData) (n : Chars),
      qget (handleScheduled (fun _ => Except.ok PUnit.unit)
        (fun _ => KeyChaos.calm) n [key] [(key, rd')]).queue key = none) := by
  intro S1 S2 S3 S4
  have hq1 : qget [(key, rd)] key = some rd := qget_cons_self [] key rd
  have hlt1 : rd.attempts < 3 := by omega
  have hS1 : S1 = ⟨qput [(key, rd)] key
      ⟨rd.bookmark, rd.attempts + 1, some e1, rd.createdAt, some n1⟩,
      [key], []⟩ :=
    sweep_fail_step key rd e1 n1 [(key, rd)] hq1 hlt1
  have hq2 : qget S1.queue key
      = some ⟨rd.bookmark, rd.attempts + 1, some e1, rd.createdAt, some n1⟩ := by
    rw [hS1]
    exact qget_qput_self _ _ _
  have hlt2 : (⟨rd.bookmark, rd.attempts + 1, some e1, rd.createdAt,
      some n1⟩ : RetryData).attempts < 3 := by
    simp only
    omega
  have hS2 : S2 = ⟨qput S1.queue key
      ⟨rd.bookmark, rd.attempts + 1 + 1, some e2, rd.createdAt, some n2⟩,
      [key], []⟩ :=
    sweep_fail_step key _ e2 n2 S1.queue hq2 hlt2
  have hq3 : qget S2.queue key
      = some ⟨rd.bookmark, rd.attempts + 1 + 1, some e2, rd.createdAt,
          some n2⟩ := by
    rw [hS2]
    exact qget_qput_self _ _ _
  have hge3 : sweepMaxAttempts ≤ (⟨rd.bookmark, rd.attempts + 1 + 1, some e2,
      rd.createdAt, some n2⟩ : RetryData).attempts := by
    simp only [sweepMaxAttempts]
    omega
  have hS3 : S3 = ⟨qdelete S2.queue key, [key], []⟩ :=
    sweep_drop_step key _ e3 n3 S2.queue hq3 hge3
  have hq4 : qget S3.queue key = none := by
    rw [hS3]
    exact qget_qdelete_self _ _
  have hS4 : S4 = ⟨S3.queue, [], []⟩ :=
    sweep_missing_step _ key n4 S3.queue hq4
  refine ⟨⟨_, hq2, by simp only; omega, rfl, by rw [hS1]⟩,
    ⟨_, hq3, by simp only; omega, rfl, by rw [hS2]⟩,
    ⟨hq4, by rw [hS3]⟩, by rw [hS4], ?_⟩
  intro rd' n
  rw [sweep_success_step key rd' n [(key, rd')] (qget_cons_self [] key rd')]
  exact qget_qdelete_self _ _

/-- Witness for claim C2 on a concrete entry and three failing sweeps. -/
theorem claim_C2_retry_lifecycle_witness :
    let S1 := handleScheduled (fun _ => Except.error "E1".toList)
      (fun _ => KeyChaos.calm) "N1".toList ["retry:x".toList]
      [("retry:x".toList, ⟨.str "u".toList, 1, none, none, none⟩)]
    let S2 := handleScheduled (fun _ => Except.error "E2".toList)
      (fun _ => KeyChaos.calm) "N2".toList ["retry:x".toList] S1.queue
    let S3 := handleScheduled (fun _ => Except.error "E3".toList)
      (fun _ => KeyChaos.calm) "N3".toList ["retry:x".toList] S2.queue
    let S4 := handleScheduled (fun _ => Except.error "E3".toList)
      (fun _ => KeyChaos.calm) "N4".toList ["retry:x".toList] S3.queue
    (∃ rd2, qget S1.queue "retry:x".toList = some rd2 ∧ rd2.attempts = 2 ∧
      rd2.bookmark = JsValue.str "u".toList ∧ S1.attempted = ["retry:x".toList]) ∧
    (∃ rd3, qget S2.queue "retry:x".toList = some rd3 ∧ rd3.attempts = 3 ∧
      rd3.bookmark = JsValue.str "u".toList ∧ S2.attempted = ["retry:x".toList]) ∧
    (qget S3.queue "retry:x".toList = none ∧ S3.attempted = ["retry:x".toList]) ∧
    S4.attempted = [] ∧
    (∀ (rd' : RetryData) (n : Chars),
      qget (handleScheduled (fun _ => Except.ok PUnit.unit)
        (fun _ => KeyChaos.calm) n ["retry:x".toList]
        [("retry:x".toList, rd')]).queue "retry:x".toList = none) :=
  claim_C2_retry_lifecycle "retry:x".toList ⟨.str "u".toList, 1, none, none, none⟩
    "E1".toList "E2".toList "E3".toList "N1".toList "N2".toList "N3".toList
    "N4".toList rfl

theorem processEntry_spec (save : Chars → Except Chars PUnit)
    (chaos : Chars → KeyChaos) (now : Chars) (st : SweepState) (key : Chars) :
    qget (processEntry save chaos now st key).queue key
      = entryAfter (chaos key) (save key) now (qget st.queue key) ∧
    (processEntry save chaos now st key).attempted
      = st.attempted ++
        (if attemptMade (chaos key) (qget st.queue key) then [key] else []) ∧
    (processEntry save chaos now st key).errorsLogged
      = st.errorsLogged ++
        (if errorLogged (chaos key) (save key) (qget st.queue key)
         then [key] else []) := by
  unfold processEntry
  cases hch : chaos key with
  | getThrows => simp [entryAfter, attemptMade, errorLogged]
  | calm =>
    cases hq : qget st.queue key with
    | none => simp [entryAfter, attemptMade, errorLogged, hq]
    | some rd =>
      cases hs : save key with
      | ok u =>
        simp [entryAfter, attemptMade, errorLogged, qget_qdelete_self]
      | error e =>
        unfold sweepCatch
        by_cases h3 : sweepMaxAttempts ≤ rd.attempts
        · simp [entryAfter, attemptMade, errorLogged, h3, qget_qdelete_self]
        · simp [entryAfter, attemptMade, errorLogged, h3, qget_qput_self]
  | deleteThrows m =>
    cases hq : qget st.queue key with
    | none => simp [entryAfter, attemptMade, errorLogged, hq]
    | some rd =>
      cases hs : save key with
      | ok u =>
        unfold sweepCatch
        by_cases h3 : sweepMaxAttempts ≤ rd.attempts
        · simp [entryAfter, attemptMade, errorLogged, h3, hq]
        · simp [entryAfter, attemptMade, errorLogged, h3, qget_qput_self]
      | error e =>
        unfold sweepCatch
        by_cases h3 : sweepMaxAttempts ≤ rd.attempts
        · simp [entryAfter, attemptMade, errorLogged, h3, hq]
        · simp [entryAfter, attemptMade, errorLogged, h3, qget_qput_self]
  | putThrows =>
    cases hq : qget st.queue key with
    | none => simp [entryAfter, attemptMade, errorLogged, hq]
    | some rd =>
      cases hs : save key with
      | ok u =>
        simp [entryAfter, attemptMade, errorLogged, qget_qdelete_self]
      | error e =>
        unfold sweepCatch
        by_cases h3 : sweepMaxAttempts ≤ rd.attempts
        · simp [entryAfter, attemptMade, errorLogged, h3, qget_qdelete_self]
        · simp [entryAfter, attemptMade, errorLogged, h3, hq]

theorem processEntry_untouched (save : Chars → Except Chars PUnit)
    (chaos : Chars → KeyChaos) (now : Chars) (st : SweepState) (key b : Chars)
    (hne : ¬b = key) :
    qget (processEntry save chaos now st key).queue b = qget st.queue b ∧
    (b ∈ (processEntry save chaos now st key).attempted ↔ b ∈ st.attempted) ∧
    (b ∈ (processEntry save chaos now st key).errorsLogged ↔
      b ∈ st.errorsLogged) := by
  have hd : ∀ q, qget (qdelete q key) b = qget q b :=
    fun q => qget_qdelete_ne q key b hne
  have hp : ∀ q v, qget (qput q key v) b = qget q b :=
    fun q v => qget_qput_ne q key b v hne
  unfold processEntry
  cases hch : chaos key with
  | getThrows => simp [hne]
  | calm =>
    cases hq : qget st.queue key with
    | none => simp
    | some rd =>
      cases hs : save key with
      | ok u => simp [hd, hne]
      | error e =>
        unfold sweepCatch
        by_cases h3 : sweepMaxAttempts ≤ rd.attempts
        · simp [h3, hd, hne]
        · simp [h3, hp, hne]
  | deleteThrows m =>
    cases hq : qget st.queue key with
    | none => simp
    | some rd =>
      cases hs : save key with
      | ok u =>
        unfold sweepCatch
        by_cases h3 : sweepMaxAttempts ≤ rd.attempts
        · simp [h3, hne]
        · simp [h3, hp, hne]
      | error e =>
        unfold sweepCatch
        by_cases h3 : sweepMaxAttempts ≤ rd.attempts
        · simp [h3, hne]
        · simp [h3, hp, hne]
  | putThrows =>
    cases hq : qget st.queue key with
    | none => simp
    | some rd =>
      cases hs : save key with
      | ok u => simp [hd, hne]
      | error e =>
        unfold sweepCatch
        by_cases h3 : sweepMaxAttempts ≤ rd.attempts
        · simp [h3, hd, hne]
        · simp [h3, hne]

theorem foldl_sweep_untouched (save : Chars → Except Chars PUnit)
    (chaos : Chars → KeyChaos) (now : Chars) (b : Chars) :
    ∀ (ks : List Chars), ¬b ∈ ks → ∀ st : SweepState,
    qget (ks.foldl (processEntry save chaos now) st).queue b
      = qget st.queue b ∧
    (b ∈ (ks.foldl (processEntry save chaos now) st).attempted ↔
      b ∈ st.attempted) ∧
    (b ∈ (ks.foldl (processEntry save chaos now) st).errorsLogged ↔
      b ∈ st.errorsLogged) := by
  intro ks
  induction ks with
  | nil => intro _ st; exact ⟨rfl, Iff.rfl, Iff.rfl⟩
  | cons k t ih =>
    intro hb st
    have hne : ¬b = k := fun h => hb (by simp [h])
    have hbt : ¬b ∈ t := fun h => hb (by simp [h])
    have hstep := processEntry_untouched save chaos now st k b hne
    have hrest := ih hbt (processEntry save chaos now st k)
    simp only [List.foldl_cons]
    exact ⟨hrest.1.trans hstep.1, hrest.2.1.trans hstep.2.1,
      hrest.2.2.trans hstep.2.2⟩

/-- Claim C7: one sweep processes each listed key inside its own
catch-and-log, so the fate of any entry `b` — its final queue state, whether
its save was attempted, whether its iteration logged an error — is exactly
what a sweep over `b` alone would produce, no matter what the other listed
entries (before or after it) do, including throwing at any step. -/
theorem claim_C7_sweep_isolation (save : Chars → Except Chars PUnit)
    (chaos : Chars → KeyChaos) (now : Chars) (q : RetryQueue)
    (ks1 ks2 : List Chars) (b : Chars) (h1 : ¬b ∈ ks1) (h2 : ¬b ∈ ks2) :
    qget (handleScheduled save chaos now (ks1 ++ b :: ks2) q).queue b
      = qget (handleScheduled save chaos now [b] q).queue b ∧
    (b ∈ (handleScheduled save chaos now (ks1 ++ b :: ks2) q).attempted ↔
      b ∈ (handleScheduled save chaos now [b] q).attempted) ∧
    (b ∈ (handleScheduled save chaos now (ks1 ++ b :: ks2) q).errorsLogged ↔
      b ∈ (handleScheduled save chaos now [b] q).errorsLogged) := by
  unfold handleScheduled
  rw [List.foldl_append]
  simp only [List.foldl_cons, List.foldl_nil]
  have hA := foldl_sweep_untouched save chaos now b ks1 h1 ⟨q, [], []⟩
  have hspecA := processEntry_spec save chaos now
    (ks1.foldl (processEntry save chaos now) ⟨q, [], []⟩) b
  have hspec0 := processEntry_spec save chaos now ⟨q, [], []⟩ b
  have hC := foldl_sweep_untouched save chaos now b ks2 h2
    (processEntry save chaos now
      (ks1.foldl (processEntry save chaos now) ⟨q, [], []⟩) b)
  have hAq : qget (ks1.foldl (processEntry save chaos now) ⟨q, [], []⟩).queue b
      = qget q b := hA.1
  have hnA : ¬b ∈ (ks1.foldl (processEntry save chaos now) ⟨q, [], []⟩).attempted := by
    intro hmem
    simpa using hA.2.1.mp hmem
  have hnL : ¬b ∈ (ks1.foldl (processEntry save chaos now) ⟨q, [], []⟩).errorsLogged := by
    intro hmem
    simpa using hA.2.2.mp hmem
  refine ⟨?_, ?_, ?_⟩
  · rw [hC.1, hspecA.1, hspec0.1, hAq]
  · rw [hC.2.1, hspecA.2.1, hspec0.2.1, hAq]
    simp [hnA]
  · rw [hC.2.2, hspecA.2.2, hspec0.2.2, hAq]
    simp [hnL]

/-- Witness for claim C7: entry A's get throwing does not stop entry B from
being attempted and resolved in the same sweep. -/
theorem claim_C7_sweep_isolation_witness :
    qget (handleScheduled
        (fun k => if k = "retry:a".toList then Except.error "boom".toList
                  else Except.ok PUnit.unit)
        (fun k => if k = "retry:a".toList then KeyChaos.getThrows
                  else KeyChaos.calm)
        "N".toList (["retry:a".toList] ++ "retry:b".toList :: [])
        [("retry:a".toList, ⟨.str "ua".toList, 1, none, none, none⟩),
         ("retry:b".toList, ⟨.str "ub".toList, 1, none, none, none⟩)]).queue
        "retry:b".toList
      = qget (handleScheduled
        (fun k => if k = "retry:a".toList then Except.error "boom".toList
                  else Except.ok PUnit.unit)
        (fun k => if k = "retry:a".toList then KeyChaos.getThrows
                  else KeyChaos.calm)
        "N".toList ["retry:b".toList]
        [("retry:a".toList, ⟨.str "ua".toList, 1, none, none, none⟩),
         ("retry:b".toList, ⟨.str "ub".toList, 1, none, none, none⟩)]).queue
        "retry:b".toList ∧
    ("retry:b".toList ∈ (handleScheduled
        (fun k => if k = "retry:a".toList then Except.error "boom".toList
                  else Except.ok PUnit.unit)
        (fun k => if k = "retry:a".toList then KeyChaos.getThrows
                  else KeyChaos.calm)
        "N".toList (["retry:a".toList] ++ "retry:b".toList :: [])
        [("retry:a".toList, ⟨.str "ua".toList, 1, none, none, none⟩),
         ("retry:b".toList, ⟨.str "ub".toList, 1, none, none, none⟩)]).attempted ↔
      "retry:b".toList ∈ (handleScheduled
        (fun k => if k = "retry:a".toList then Except.error "boom".toList
                  else Except.ok PUnit.unit)
        (fun k => if k = "retry:a".toList then KeyChaos.getThrows
                  else KeyChaos.calm)
        "N".toList ["retry:b".toList]
        [("retry:a".toList, ⟨.str "ua".toList, 1, none, none, none⟩),
         ("retry:b".toList, ⟨.str "ub".toList, 1, none, none, none⟩)]).attempted) ∧
    ("retry:b".toList ∈ (handleScheduled
        (fun k => if k = "retry:a".toList then Except.error "boom".toList
                  else Except.ok PUnit.unit)
        (fun k => if k = "retry:a".toList then KeyChaos.getThrows
                  else KeyChaos.calm)
        "N".toList (["retry:a".toList] ++ "retry:b".toList :: [])
        [("retry:a".toList, ⟨.str "ua".toList, 1, none, none, none⟩),
         ("retry:b".toList, ⟨.str "ub".toList, 1, none, none, none⟩)]).errorsLogged ↔
      "retry:b".toList ∈ (handleScheduled
        (fun k => if k = "retry:a".toList then Except.error "boom".toList
                  else Except.ok PUnit.unit)
        (fun k => if k = "retry:a".toList then KeyChaos.getThrows
                  else KeyChaos.calm)
        "N".toList ["retry:b".toList]
        [("retry:a".toList, ⟨.str "ua".toList, 1, none, none, none⟩),
         ("retry:b".toList, ⟨.str "ub".toList, 1, none, none, none⟩)]).errorsLogged) :=
  claim_C7_sweep_isolation
    (fun k => if k = "retry:a".toList then Except.error "boom".toList
              else Except.ok PUnit.unit)
    (fun k => if k = "retry:a".toList then KeyChaos.getThrows
              else KeyChaos.calm)
    "N".toList
    [("retry:a".toList, ⟨.str "ua".toList, 1, none, none, none⟩),
     ("retry:b".toList, ⟨.str "ub".toList, 1, none, none, none⟩)]
    ["retry:a".toList] [] "retry:b".toList (by decide) (by decide)
